import Mathlib

/-!
Verification of the `nlzss11` codec (`src/nlzss11/src/lib.rs`), a shallow
embedding of the crate's `compress` / `decompress` functions and of the
`LzssCode` token codec, together with proofs about the properties stated in
the crate's specification.

Modelling conventions:
* a byte buffer is a `List Nat`; every byte loaded from a buffer is reduced
  `% 256` at its use site, which is the identity on genuine `u8` data and
  keeps the embedding total on arbitrary `Nat` lists;
* `u32` arithmetic is `Nat` arithmetic with an explicit `% 4294967296`
  wherever the source can wrap (`wrapping_sub`, `wrapping_mul`);
* Rust panics (out-of-range slice indexing) are modelled by an explicit
  `panicked` result constructor;
* the two `while` loops are modelled by structural recursion on a `fuel`
  counter; the top-level entry points pass `data.length + 1` fuel, which is a
  strict upper bound on the number of iterations because every iteration
  advances the input cursor by at least one byte and the loops stop (with a
  result or an error) once the cursor passes the end of the input.
-/

namespace Nlzss11

/-- The `DecompressError` enum of `src/nlzss11/src/lib.rs`. -/
inductive DecompressError where
  | InvalidMagic : DecompressError
  | InvalidIndex (pos : Nat) : DecompressError
  | LibraryError (msg : String) : DecompressError
deriving DecidableEq

/-- Result of `LzssCode::read`.  `panicked` models a Rust panic raised by an
out-of-range slice index (`buf[..2]` when fewer than 2 bytes remain, or
`buf[2..4]` when fewer than 4 remain); `fail` models a returned `None`;
`ok distance length advance` models `Some((LzssCode { distance, length }, advance))`. -/
inductive ReadResult where
  | panicked : ReadResult
  | fail : ReadResult
  | ok (distance length advance : Nat) : ReadResult
deriving DecidableEq

/-- `LzssCode::read(buf)`.  `pair` is `u16::from_be_bytes(buf[..2]) as u32`;
since `pair < 0x10000`, the source's three-way `match pair & 0xF000`
(`0`, `0x1000`, other) is exactly the three-way split on `pair / 0x1000`
used below.  The slice `buf[..2]` panics when `buf.len() < 2`, and
`buf[2..4]` panics when `buf.len() < 4`; `buf.get(2)?` is a checked read. -/
def lzssRead (buf : List Nat) : ReadResult :=
  if buf.length < 2 then ReadResult.panicked
  else
    let pair := (buf.getD 0 0 % 256) * 256 + buf.getD 1 0 % 256
    if pair / 4096 = 0 then
      -- 0000LLLL LLLLDDDD DDDDDDDD ; length = (pair >> 4) + 0x11
      match buf.get? 2 with
      | Option.none => ReadResult.fail
      | Option.some b2 =>
          ReadResult.ok ((pair % 16) * 256 + b2 % 256 + 1) (pair / 16 + 0x11) 3
    else if pair / 4096 = 1 then
      -- 0001LLLL LLLLLLLL LLLLDDDD DDDDDDDD ; length = ((pair & 0xFFF) << 4 | ext >> 12) + 0x111
      if buf.length < 4 then ReadResult.panicked
      else
        let ext := (buf.getD 2 0 % 256) * 256 + buf.getD 3 0 % 256
        ReadResult.ok (ext % 4096 + 1) ((pair % 4096) * 16 + ext / 4096 + 0x111) 4
    else
      -- LLLLDDDD DDDDDDDD ; length = (pair >> 12) + 1, distance = (pair & 0xFFF) + 1
      ReadResult.ok (pair % 4096 + 1) (pair / 4096 + 1) 2

/-- `LzssCode::write(&self, out_buf)`: the bytes pushed for a token with the
given `distance` and `length`.  Each `as u8` cast is a `% 256`.  (`distance`
is at least 1 at every call site, so `self.distance - 1` never underflows;
for `distance = 0` the Rust subtraction would wrap or panic, while the `Nat`
subtraction yields 0 — no theorem below touches that case.) -/
def lzssWrite (distance length : Nat) : List Nat :=
  let adj_dist := distance - 1
  if 0x111 ≤ length then
    let adj_len := length - 0x111
    [(16 + adj_len / 4096) % 256, (adj_len / 16) % 256,
     ((adj_len % 16) * 16 + adj_dist / 256) % 256, adj_dist % 256]
  else if 0x11 ≤ length then
    let adj_len := length - 0x11
    [(adj_len / 16) % 256, ((adj_len % 16) * 16 + adj_dist / 256) % 256, adj_dist % 256]
  else
    let adj_len := length - 1
    [(adj_len * 16 + adj_dist / 256) % 256, adj_dist % 256]

example : lzssRead (lzssWrite 1 9) = ReadResult.ok 1 9 2 := by decide
example : lzssRead (lzssWrite 4095 17) = ReadResult.ok 4095 17 3 := by decide
example : lzssRead (lzssWrite 7 0x10110) = ReadResult.ok 7 0x10110 4 := by decide

/-- `get_or_oob_err(data, pos)`: a checked byte load from `data`. -/
def get_or_oob_err (data : List Nat) (pos : Nat) :
    Except DecompressError Nat :=
  match data.get? pos with
  | Option.some b => Except.ok (b % 256)
  | Option.none => Except.error (DecompressError.InvalidIndex pos)

/-- `LE::read_u24(&data[i..])`: 24-bit little-endian load. -/
def readU24LE (data : List Nat) (i : Nat) : Nat :=
  data.getD i 0 % 256 + (data.getD (i + 1) 0 % 256) * 256 +
    (data.getD (i + 2) 0 % 256) * 65536

/-- `LE::read_u32(&data[i..])`: 32-bit little-endian load. -/
def readU32LE (data : List Nat) (i : Nat) : Nat :=
  readU24LE data i + (data.getD (i + 3) 0 % 256) * 16777216

/-- Capacity after `Vec<u8>` must hold `required` elements: unchanged when it
already fits, otherwise `RawVec::grow_amortized` picks
`max(8, max(2 * cap, required))` (8 is the minimum non-zero capacity for
1-byte elements). -/
def growCap (cap required : Nat) : Nat :=
  if required ≤ cap then cap else max 8 (max (2 * cap) required)

/-- Result of `decompress`: `panicked` models a Rust panic (an out-of-range
slice index inside `LzssCode::read`), the other two constructors model
`Err` / `Ok`. -/
inductive DResult where
  | panicked : DResult
  | err (e : DecompressError) : DResult
  | ok (out : List Nat) : DResult
deriving DecidableEq

/-- The overlapping-copy loop of `decompress`
(`for cpy_pos in cpy_start..cpy_start + length { out_buf.push(out_buf.get(cpy_pos).copied().unwrap_or(0)) }`),
iterated `n` times starting at source index `cpy_pos`, threading the
vector's capacity through each `push`. -/
def overlapCopy (out : List Nat) (cap cpy_pos n : Nat) : List Nat × Nat :=
  match n with
  | 0 => (out, cap)
  | Nat.succ m =>
      overlapCopy (out ++ [(out.get? cpy_pos).getD 0])
        (growCap cap (out.length + 1)) (cpy_pos + 1) m

/-- The `while out_buf.len() < out_buf.capacity()` loop of `decompress`.
State: cursor `pos`, output `out` with capacity `cap`, current `group_header`
byte `gh` (always `< 256` by construction, so `(gh & 0x80) == 0` is
`gh / 128 = 0`) and `remaining_chunks` counter `rc`.  `fuel` only bounds the
recursion; `decompress` passes `data.length + 1`, which is never exhausted
because `pos` grows by at least one per iteration and every byte access at
`pos ≥ data.length` already yields an error, so the fuel-exhaustion branch is
dead code. -/
def decompressLoop (data : List Nat) :
    Nat → Nat → List Nat → Nat → Nat → Nat → DResult
  | 0, _pos, out, cap, _gh, _rc =>
    if cap ≤ out.length then DResult.ok out
    else DResult.err (DecompressError.LibraryError "fuel exhausted")
  | Nat.succ fuel, pos, out, cap, gh, rc =>
    if cap ≤ out.length then DResult.ok out
    else
      -- one byte indicates if the next 8 blocks are literals or backreferences
      match (if rc = 0 then
               (get_or_oob_err data pos).map (fun b => (b, pos + 1, 8))
             else Except.ok (gh, pos, rc) :
             Except DecompressError (Nat × Nat × Nat)) with
      | Except.error e => DResult.err e
      | Except.ok (gh', pos', rc') =>
        if gh' / 128 = 0 then
          -- literal
          match get_or_oob_err data pos' with
          | Except.error e => DResult.err e
          | Except.ok b =>
              decompressLoop data fuel (pos' + 1) (out ++ [b])
                (growCap cap (out.length + 1)) (gh' * 2 % 256) (rc' - 1)
        else
          -- backreference; `&data[pos..]` panics when pos > data.len()
          if data.length < pos' then DResult.panicked
          else
            match lzssRead (data.drop pos') with
            | ReadResult.panicked => DResult.panicked
            | ReadResult.fail =>
                DResult.err (DecompressError.InvalidIndex data.length)
            | ReadResult.ok distance length advance =>
              -- cpy_start = out_buf.len().checked_sub(distance)?
              if distance ≤ out.length then
                let cpy_start := out.length - distance
                if length < distance then
                  -- extend_from_within(cpy_start..cpy_start + length):
                  -- reserve, then append the (non-overlapping) source slice
                  decompressLoop data fuel (pos' + advance)
                    (out ++ (out.drop cpy_start).take length)
                    (growCap cap (out.length + length)) (gh' * 2 % 256)
                    (rc' - 1)
                else
                  let oc := overlapCopy out cap cpy_start length
                  decompressLoop data fuel (pos' + advance) oc.1 oc.2
                    (gh' * 2 % 256) (rc' - 1)
              else DResult.err (DecompressError.InvalidIndex 0)

/-- `decompress(data)`.  Note that the 32-bit escape branch does not advance
`pos`, exactly as in the source (`pos` stays 4 after `out_size` is re-read
from `data[4..8]`). -/
def decompress (data : List Nat) : DResult :=
  if data.length < 4 then DResult.err (DecompressError.LibraryError "Too short")
  else if data.getD 0 0 % 256 ≠ 0x11 then DResult.err DecompressError.InvalidMagic
  else
    let out_size := readU24LE data 1
    if out_size = 0 then
      if data.length < 8 then
        DResult.err (DecompressError.LibraryError "Too short")
      else decompressLoop data (data.length + 1) 4 [] (readU32LE data 4) 0 0
    else decompressLoop data (data.length + 1) 4 [] out_size 0 0

example :
    decompress [0x11, 3, 0, 0, 0x00, 0x61, 0x62, 0x63] =
      DResult.ok [0x61, 0x62, 0x63] := by decide

example : decompress [0x11, 1, 0, 0, 0x80] = DResult.panicked := by decide

/-- `make_hash(sequence)`: `(u32::from_ne_bytes(sequence).wrapping_mul(2654435761)) >> 16`,
on a little-endian platform (`from_ne_bytes` = `from_le_bytes`). -/
def make_hash (a b c d : Nat) : Nat :=
  (a % 256 + b % 256 * 256 + c % 256 * 65536 + d % 256 * 16777216) *
    2654435761 % 4294967296 / 65536

/-- `HASH_COUNT = 4096 * 16`. -/
def HASH_COUNT : Nat := 65536

/-- `u32::MAX`, the "empty slot" sentinel of `MatchSearcher`. -/
def U32_SENTINEL : Nat := 4294967295

/-- `TOTAL_BACKREF_LEN = 0x10110`. -/
def TOTAL_BACKREF_LEN : Nat := 0x10110

/-- `TOTAL_BACKREF_POS = 0xFFF`. -/
def TOTAL_BACKREF_POS : Nat := 0xFFF

/-- The `search_dict` array of `MatchSearcher`, as a map from slot index to
stored `u32`; `MatchSearcher::new()` fills every slot with the sentinel. -/
def initTable : Nat → Nat := fun _ => U32_SENTINEL

/-- `MatchSearcher::submit_val(data, cur)`: hash the 4 bytes at `cur` and
store `cur` in that slot; no-op when fewer than 4 bytes remain. -/
def submit_val (table : Nat → Nat) (data : List Nat) (cur : Nat) :
    Nat → Nat :=
  if data.length < cur + 4 then table
  else
    let h := make_hash (data.getD cur 0) (data.getD (cur + 1) 0)
        (data.getD (cur + 2) 0) (data.getD (cur + 3) 0) % HASH_COUNT
    fun i => if i = h then cur else table i

/-- The `for p in pos..(pos + backref_len)` submission loop after a match:
`submit_val` at `start, start + 1, ..., start + n - 1`. -/
def submitRange (table : Nat → Nat) (data : List Nat) (start n : Nat) :
    Nat → Nat :=
  match n with
  | 0 => table
  | Nat.succ m => submitRange (submit_val table data start) data (start + 1) m

/-- Length of the common prefix of two lists:
`a.iter().zip(b.iter()).take_while(|&(x, y)| x == y).count()`. -/
def commonPrefixLen : List Nat → List Nat → Nat
  | x :: xs, y :: ys => if x = y then commonPrefixLen xs ys + 1 else 0
  | _, _ => 0

/-- `MatchSearcher::get_lz_code(data, cur)`: propose a
`(backref_distance, backref_length)` pair.  `cur.wrapping_sub(prev)` is u32
wrapping subtraction; every stored `prev` is below `2^32` here. -/
def get_lz_code (table : Nat → Nat) (data : List Nat) (cur : Nat) :
    Option (Nat × Nat) :=
  if data.length < cur + 4 then Option.none
  else
    let h := make_hash (data.getD cur 0) (data.getD (cur + 1) 0)
        (data.getD (cur + 2) 0) (data.getD (cur + 3) 0) % HASH_COUNT
    let prev := table h
    if prev = U32_SENTINEL then Option.none
    else
      let match_backref := (4294967296 + cur - prev) % 4294967296
      if TOTAL_BACKREF_POS < match_backref then Option.none
      else
        let match_len := commonPrefixLen (data.drop cur) (data.drop prev)
        if match_len < 4 then Option.none
        else Option.some (match_backref, min match_len TOTAL_BACKREF_LEN)

/-- The `while pos < data.len()` loop of `compress`.  State: searcher
`table`, output buffer `out`, placeholder offset `ghp` of the current group
header, accumulator `gh` and its bit count `ghc`, input cursor `pos`.
On exit the final partial group header is left-aligned and patched in
(`group_header <<= 8 - group_header_count`), exactly as after the source
loop.  `fuel` only bounds the recursion; `compress` passes
`data.length + 1`, never exhausted since `pos` strictly increases. -/
def compressLoop (data : List Nat) :
    (Nat → Nat) → List Nat → Nat → Nat → Nat → Nat → Nat → List Nat
  | _table, out, ghp, gh, ghc, _pos, 0 =>
    if ghc ≠ 0 then out.set ghp (gh * 2 ^ (8 - ghc) % 256) else out
  | table, out, ghp, gh, ghc, pos, Nat.succ fuel =>
    if pos < data.length then
      -- flush a full group header and start a new placeholder
      let st := if ghc = 8 then (out.set ghp gh ++ [0], out.length, 0, 0)
        else ((out, ghp, gh, ghc) : List Nat × Nat × Nat × Nat)
      match get_lz_code table data pos with
      | Option.some (backref_dist, backref_len) =>
          compressLoop data (submitRange table data pos backref_len)
            (st.1 ++ lzssWrite backref_dist backref_len) st.2.1
            (st.2.2.1 * 2 % 256 + 1) (st.2.2.2 + 1) (pos + backref_len) fuel
      | Option.none =>
          compressLoop data (submit_val table data pos)
            (st.1 ++ [data.getD pos 0 % 256]) st.2.1 (st.2.2.1 * 2 % 256)
            (st.2.2.2 + 1) (pos + 1) fuel
    else if ghc ≠ 0 then out.set ghp (gh * 2 ^ (8 - ghc) % 256) else out

/-- `(n as u32).to_le_bytes()` truncated to 3 bytes: `LE::write_u24`. -/
def u24le (n : Nat) : List Nat := [n % 256, n / 256 % 256, n / 65536 % 256]

/-- `(n as u32).to_le_bytes()`. -/
def u32le (n : Nat) : List Nat :=
  [n % 256, n / 256 % 256, n / 65536 % 256, n / 16777216 % 256]

/-- `compress(data)`: magic byte, size header (note that *no* size header at
all is written when `data.len() ≥ 0xFFFFFFFF`), then the group-framed token
stream produced by `compressLoop`. -/
def compress (data : List Nat) : List Nat :=
  let out₁ :=
    if data.length < 0xFFFFFF then 0x11 :: u24le data.length
    else if data.length < 0xFFFFFFFF then
      0x11 :: 0 :: 0 :: 0 :: u32le data.length
    else [0x11]
  compressLoop data initTable (out₁ ++ [0]) out₁.length 0 0 0
    (data.length + 1)

example : compress [] = [0x11, 0, 0, 0, 0] := by decide
example : decompress (compress [0x61, 0x62, 0x63]) = DResult.ok [0x61, 0x62, 0x63] := by
  decide
example :
    decompress (compress (List.replicate 10 0x61)) =
      DResult.ok (List.replicate 10 0x61) := by decide

/-- The `out_size` computed by the header-parsing prelude of `decompress`
(lines 88–94 of the source): the 24-bit little-endian field at offset 1
unless it is zero, in which case the 32-bit escape field at offset 4. -/
def declaredOutSize (data : List Nat) : Nat :=
  if readU24LE data 1 = 0 then readU32LE data 4 else readU24LE data 1

/-- `overlapCopy` with the `unwrap_or(0)` fallback removed: the step returns
`none` exactly when `out_buf.get(cpy_pos)` is `None`, i.e. when the
fallback value of the source's `unwrap_or` would have been used. -/
def overlapCopyNoDefault (out : List Nat) (cap cpy_pos n : Nat) :
    Option (List Nat × Nat) :=
  match n with
  | 0 => Option.some (out, cap)
  | Nat.succ m =>
      match out.get? cpy_pos with
      | Option.none => Option.none
      | Option.some b =>
          overlapCopyNoDefault (out ++ [b]) (growCap cap (out.length + 1))
            (cpy_pos + 1) m

/-- C1: the spec demands `decompress(compress(x)) == Ok(x)` for every byte
sequence, including the empty one.  The code violates this at `x = []`:
`compress([])` emits the 3-byte size header `[0, 0, 0]` (because
`data.len() < 0xFFFFFF` includes 0), which `decompress` necessarily
interprets as the 32-bit-escape marker; the 5-byte stream is then shorter
than the 8 bytes the escape form requires, so decompression fails with
`LibraryError("Too short")` instead of returning `Ok([])`. -/
theorem C1_compress_empty_breaks_roundtrip :
    compress [] = [0x11, 0, 0, 0, 0] ∧
    decompress (compress []) =
      DResult.err (DecompressError.LibraryError "Too short") ∧
    decompress (compress []) ≠ DResult.ok [] := by decide

/-- C2: the claim says `decompress` never reads out of bounds and never
panics, every read being explicitly bounds-checked.  The code violates this:
`LzssCode::read` begins with the *unchecked* slice `buf[..2]`, which panics
when the match token starts less than 2 bytes before the end of the input.
The 5-byte stream below (valid magic, declared size 1, group header `0x80`
announcing a match token at the very end of the buffer) makes `decompress`
panic. -/
theorem C2_read_truncated_token_panics :
    decompress [0x11, 1, 0, 0, 0x80] = DResult.panicked ∧
    lzssRead [] = ReadResult.panicked := by decide

/-- C3 counterexample: a crafted stream whose declared size is 4 but whose
match token overshoots it.  `decompress` succeeds and returns 8 bytes, so a
successful result is *not* always exactly the declared length.  (The match
token pushes the output past its capacity, the vector's capacity doubles to
8, and the loop keeps consuming tokens until the output reaches the grown
capacity.) -/
theorem C3_oversized_ok_counterexample :
    readU24LE [0x11, 4, 0, 0, 0x40, 0x61, 0x30, 0x00, 0x62, 0x63, 0x64] 1 = 4 ∧
    decompress [0x11, 4, 0, 0, 0x40, 0x61, 0x30, 0x00, 0x62, 0x63, 0x64] =
      DResult.ok [0x61, 0x61, 0x61, 0x61, 0x61, 0x62, 0x63, 0x64] ∧
    ([0x61, 0x61, 0x61, 0x61, 0x61, 0x62, 0x63, 0x64] : List Nat).length ≠ 4 := by
  decide

/-- C5 counterexample: a match of length 17 (which the claim places in the
2-byte Tier A range `3 ≤ length ≤ 18`) is written in the 3-byte form. -/
theorem C5_length17_counterexample :
    (lzssWrite 1 17).length ≠ 2 ∧ (lzssWrite 1 17).length = 3 := by decide

/-- C5, amended: `LzssCode::write` selects the 2-byte Tier A form exactly for
`3 ≤ length ≤ 16` (`length < 0x11`); every length of 17 or more is written
in the 3-byte or 4-byte form. -/
theorem C5_tier_selection (distance length : Nat) :
    (3 ≤ length → length ≤ 16 → (lzssWrite distance length).length = 2) ∧
    (17 ≤ length →
      (lzssWrite distance length).length = 3 ∨
        (lzssWrite distance length).length = 4) := by
  constructor
  · intro _ h16
    rw [lzssWrite, if_neg (by omega), if_neg (by omega)]
    simp
  · intro h17
    by_cases h : 0x111 ≤ length
    · right
      rw [lzssWrite, if_pos h]
      simp
    · left
      rw [lzssWrite, if_neg h, if_pos (by omega)]
      simp

theorem C5_witness :
    3 ≤ 5 ∧ 5 ≤ 16 ∧ (lzssWrite 100 5).length = 2 :=
  ⟨by decide, by decide, (C5_tier_selection 100 5).1 (by decide) (by decide)⟩

/-- C7 counterexample: the input `[0x00]` has a first byte different from
0x11, yet `decompress` does not return `InvalidMagic` — the "Too short"
length check runs first. -/
theorem C7_short_input_counterexample :
    ([0] : List Nat).getD 0 0 % 256 ≠ 0x11 ∧
    decompress [0] = DResult.err (DecompressError.LibraryError "Too short") ∧
    decompress [0] ≠ DResult.err DecompressError.InvalidMagic := by decide

/-- C7, amended: for every input of length at least 4 whose first byte is
not 0x11, `decompress` returns `InvalidMagic` immediately (inputs shorter
than 4 bytes are rejected as too short before the magic byte is examined). -/
theorem C7_invalid_magic (data : List Nat) (h4 : 4 ≤ data.length)
    (hm : data.getD 0 0 % 256 ≠ 0x11) :
    decompress data = DResult.err DecompressError.InvalidMagic := by
  rw [decompress, if_neg (by omega), if_pos hm]

theorem C7_witness :
    4 ≤ ([0, 0, 0, 0] : List Nat).length ∧
    decompress [0, 0, 0, 0] = DResult.err DecompressError.InvalidMagic :=
  ⟨by decide, C7_invalid_magic [0, 0, 0, 0] (by decide) (by decide)⟩

/-- Any successful `LzssCode::read` saw at least 2 bytes (else the initial
`buf[..2]` slice would have panicked). -/
theorem lzssRead_ok_buflen {buf : List Nat} {d l a : Nat}
    (h : lzssRead buf = ReadResult.ok d l a) : 2 ≤ buf.length := by
  by_contra hc
  rw [lzssRead, if_pos (by omega)] at h
  exact ReadResult.noConfusion h

/-- Capacity growth never shrinks the capacity. -/
theorem growCap_le (cap required : Nat) : cap ≤ growCap cap required := by
  rw [growCap]
  split <;> omega

/-- The overlapping copy appends exactly `n` bytes. -/
theorem overlapCopy_fst_length (out : List Nat) (cap s n : Nat) :
    ((overlapCopy out cap s n).1).length = out.length + n := by
  induction n generalizing out cap s with
  | zero => rfl
  | succ m ih =>
      rw [overlapCopy, ih]
      simp
      omega

/-- The overlapping copy never shrinks the capacity. -/
theorem overlapCopy_cap_le (out : List Nat) (cap s n : Nat) :
    cap ≤ (overlapCopy out cap s n).2 := by
  induction n generalizing out cap s with
  | zero => exact Nat.le_refl _
  | succ m ih =>
      rw [overlapCopy]
      exact Nat.le_trans (growCap_le _ _) (ih _ _ _)

/-- The overlapping copy does not change bytes already in the output. -/
theorem overlapCopy_getD_stable (out : List Nat) (cap s n i : Nat)
    (hi : i < out.length) :
    ((overlapCopy out cap s n).1).getD i 0 = out.getD i 0 := by
  induction n generalizing out cap s with
  | zero => rfl
  | succ m ih =>
      rw [overlapCopy, ih _ _ _ (by simp; omega)]
      exact List.getD_append _ _ _ _ hi

/-- If the decompression loop succeeds, the output has reached the capacity
current at that point (the capacity only ever grows). -/
theorem decompressLoop_ok_len (data : List Nat) (fuel : Nat) :
    ∀ pos out cap gh rc res,
      decompressLoop data fuel pos out cap gh rc = DResult.ok res →
      cap ≤ res.length := by
  induction fuel with
  | zero =>
      intro pos out cap gh rc res h
      rw [decompressLoop] at h
      by_cases hc : cap ≤ out.length
      · rw [if_pos hc] at h
        injection h with h1
        exact h1 ▸ hc
      · rw [if_neg hc] at h
        exact DResult.noConfusion h
  | succ fuel ih =>
      intro pos out cap gh rc res h
      rw [decompressLoop] at h
      by_cases hc : cap ≤ out.length
      · rw [if_pos hc] at h
        injection h with h1
        exact h1 ▸ hc
      · rw [if_neg hc] at h
        split at h
        · exact DResult.noConfusion h
        · split at h
          · split at h
            · exact DResult.noConfusion h
            · exact Nat.le_trans (growCap_le _ _) (ih _ _ _ _ _ _ h)
          · split at h
            · exact DResult.noConfusion h
            · split at h
              · exact DResult.noConfusion h
              · exact DResult.noConfusion h
              · split at h
                · split at h
                  · exact Nat.le_trans (growCap_le _ _) (ih _ _ _ _ _ _ h)
                  · exact Nat.le_trans (overlapCopy_cap_le _ _ _ _)
                      (ih _ _ _ _ _ _ h)
                · exact DResult.noConfusion h

/-- C3, amended: a successful `decompress` never returns fewer bytes than
the size declared in the header (no partial output); it can however return
*more* when a crafted final match token overshoots the declared size, as
`C3_oversized_ok_counterexample` shows. -/
theorem C3_ok_at_least_declared (data out : List Nat)
    (h : decompress data = DResult.ok out) :
    declaredOutSize data ≤ out.length := by
  rw [decompress] at h
  by_cases h4 : data.length < 4
  · rw [if_pos h4] at h
    exact DResult.noConfusion h
  · rw [if_neg h4] at h
    by_cases hm : data.getD 0 0 % 256 ≠ 0x11
    · rw [if_pos hm] at h
      exact DResult.noConfusion h
    · rw [if_neg hm] at h
      by_cases hz : readU24LE data 1 = 0
      · rw [if_pos hz] at h
        by_cases h8 : data.length < 8
        · rw [if_pos h8] at h
          exact DResult.noConfusion h
        · rw [if_neg h8] at h
          rw [declaredOutSize, if_pos hz]
          exact decompressLoop_ok_len data _ _ _ _ _ _ _ h
      · rw [if_neg hz] at h
        rw [declaredOutSize, if_neg hz]
        exact decompressLoop_ok_len data _ _ _ _ _ _ _ h

theorem C3_witness :
    decompress [0x11, 1, 0, 0, 0x00, 0x61] = DResult.ok [0x61] ∧
    declaredOutSize [0x11, 1, 0, 0, 0x00, 0x61] ≤ ([0x61] : List Nat).length :=
  ⟨by decide, C3_ok_at_least_declared [0x11, 1, 0, 0, 0x00, 0x61] [0x61]
      (by decide)⟩

/-- Every successful `LzssCode::read` reports a distance of at least 1
(each of the three decodings ends in `+ 1`). -/
theorem lzssRead_ok_dist_pos {buf : List Nat} {d l a : Nat}
    (h : lzssRead buf = ReadResult.ok d l a) : 1 ≤ d := by
  simp only [lzssRead] at h
  repeat' split at h
  all_goals
    first
      | exact ReadResult.noConfusion h
      | (injection h with h1 h2 h3; omega)

/-- C8: whenever the decode loop is about to process a match token (a group
bit of 1) whose decoded distance exceeds the number of output bytes produced
so far, it stops with `InvalidIndex` (the `checked_sub` guard), never with a
successful result. -/
theorem C8_excessive_distance_invalid_index (data : List Nat)
    (fuel pos : Nat) (out : List Nat) (cap gh rc distance length advance : Nat)
    (hcap : out.length < cap) (hrc : rc ≠ 0) (hgh : gh / 128 ≠ 0)
    (hread : lzssRead (data.drop pos) = ReadResult.ok distance length advance)
    (hdist : out.length < distance) :
    decompressLoop data (fuel + 1) pos out cap gh rc =
      DResult.err (DecompressError.InvalidIndex 0) := by
  have h2 : 2 ≤ (data.drop pos).length := lzssRead_ok_buflen hread
  rw [List.length_drop] at h2
  rw [decompressLoop, if_neg (by omega), if_neg hrc]
  simp only []
  rw [if_neg hgh, if_neg (by omega), hread]
  simp only []
  rw [if_neg (by omega)]

theorem C8_witness :
    decompressLoop [0x20, 0x00] (6 + 1) 0 [] 5 128 3 =
      DResult.err (DecompressError.InvalidIndex 0) :=
  C8_excessive_distance_invalid_index [0x20, 0x00] 6 0 [] 5 128 3 1 3 2
    (by decide) (by decide) (by decide) (by decide) (by decide)

/-- C10: the `unwrap_or(0)` fallback in the overlapping-copy loop is never
used.  First conjunct: every decoded match has distance ≥ 1, so
`cpy_start = out_buf.len() - distance < out_buf.len()`.  Second conjunct:
whenever the copy starts strictly inside the output buffer, the variant of
the loop that fails instead of falling back to 0 computes exactly the same
result — every `out_buf.get(cpy_pos)` along the way is `Some`, because each
iteration pushes one byte before the source index advances past it. -/
theorem C10_no_fallback :
    (∀ (buf : List Nat) (d l a : Nat),
        lzssRead buf = ReadResult.ok d l a → 1 ≤ d) ∧
    (∀ (out : List Nat) (cap cpy_pos n : Nat), cpy_pos < out.length →
        overlapCopyNoDefault out cap cpy_pos n =
          Option.some (overlapCopy out cap cpy_pos n)) := by
  constructor
  · intro buf d l a h
    exact lzssRead_ok_dist_pos h
  · intro out cap cpy_pos n
    induction n generalizing out cap cpy_pos with
    | zero => intro _; rfl
    | succ m ih =>
        intro hlt
        rw [overlapCopyNoDefault, overlapCopy]
        rw [List.get?_eq_get hlt]
        simp only [Option.getD_some]
        exact ih _ _ _ (by simp; omega)

/-- `getD` of a `set` at a different index. -/
theorem getD_set_ne (l : List Nat) (j v i : Nat) (h : j ≠ i) :
    (l.set j v).getD i 0 = l.getD i 0 := by
  rw [List.getD_eq_getD_get?, List.get?_set_ne _ _ h, ← List.getD_eq_getD_get?]

/-- `getD` of `replicate` below the length. -/
theorem getD_replicate_lt {n i a d : Nat} (h : i < n) :
    (List.replicate n a).getD i d = a := by
  rw [List.getD_eq_getElem _ _ (by simpa using h)]
  simp

/-- Two lists agreeing pointwise below `k` (both at least `k` long) have the
same `k`-prefix. -/
theorem take_eq_of_getD (l l' : List Nat) (k : Nat) (hk : k ≤ l.length)
    (hk' : k ≤ l'.length) (h : ∀ i, i < k → l.getD i 0 = l'.getD i 0) :
    l.take k = l'.take k := by
  apply List.ext_getElem
  · simp [Nat.min_eq_left hk, Nat.min_eq_left hk']
  · intro i h1 h2
    rw [List.getElem_take, List.getElem_take]
    have hik : i < k := by simpa [Nat.min_eq_left hk] using h1
    have hgd := h i hik
    rwa [List.getD_eq_getElem l 0 (by omega),
      List.getD_eq_getElem l' 0 (by omega)] at hgd

/-- The compression loop only ever appends to (or patches inside) the output
buffer, so the output never shrinks. -/
theorem compressLoop_len_le (data : List Nat) (fuel : Nat) :
    ∀ (table : Nat → Nat) (out : List Nat) (ghp gh ghc pos : Nat),
      out.length ≤ (compressLoop data table out ghp gh ghc pos fuel).length := by
  induction fuel with
  | zero =>
      intro table out ghp gh ghc pos
      rw [compressLoop]
      split
      · simp
      · exact Nat.le_refl _
  | succ fuel ih =>
      intro table out ghp gh ghc pos
      simp only [compressLoop]
      split
      · split
        · refine Nat.le_trans ?_ (ih _ _ _ _ _ _)
          by_cases h8 : ghc = 8
          · simp [h8]
          · simp [h8]
        · refine Nat.le_trans ?_ (ih _ _ _ _ _ _)
          by_cases h8 : ghc = 8
          · simp [h8]
          · simp [h8]
      · split
        · simp
        · exact Nat.le_refl _

/-- Bytes of the output buffer other than the current group-header
placeholder are never modified by the compression loop: all later writes
land at the placeholder offset or beyond the current end of the buffer. -/
theorem compressLoop_getD_stable (data : List Nat) (fuel : Nat) :
    ∀ (table : Nat → Nat) (out : List Nat) (ghp gh ghc pos i : Nat),
      ghp < out.length → i < out.length → i ≠ ghp →
      (compressLoop data table out ghp gh ghc pos fuel).getD i 0 =
        out.getD i 0 := by
  induction fuel with
  | zero =>
      intro table out ghp gh ghc pos i hghp hi hne
      rw [compressLoop]
      split
      · exact getD_set_ne out ghp _ i (Ne.symm hne)
      · rfl
  | succ fuel ih =>
      intro table out ghp gh ghc pos i hghp hi hne
      simp only [compressLoop]
      split
      · by_cases h8 : ghc = 8
        · rw [if_pos h8]
          split
          · rw [ih _ _ _ _ _ _ _ (by simp <;> omega) (by simp <;> omega)
                (by simp <;> omega),
              List.getD_append _ _ _ _ (by simp <;> omega),
              List.getD_append _ _ _ _ (by simp <;> omega)]
            exact getD_set_ne out ghp _ i (Ne.symm hne)
          · rw [ih _ _ _ _ _ _ _ (by simp <;> omega) (by simp <;> omega)
                (by simp <;> omega),
              List.getD_append _ _ _ _ (by simp <;> omega),
              List.getD_append _ _ _ _ (by simp <;> omega)]
            exact getD_set_ne out ghp _ i (Ne.symm hne)
        · rw [if_neg h8]
          split
          · rw [ih _ _ _ _ _ _ _ (by simp <;> omega) (by simp <;> omega) hne,
              List.getD_append _ _ _ _ (by simp <;> omega)]
          · rw [ih _ _ _ _ _ _ _ (by simp <;> omega) (by simp <;> omega) hne,
              List.getD_append _ _ _ _ (by simp <;> omega)]
      · split
        · exact getD_set_ne out ghp _ i (Ne.symm hne)
        · rfl

/-- `compress` with a small length: the whole 4-byte prefix (magic plus
24-bit size) survives the loop untouched. -/
theorem compress_take_size3 (x : List Nat) (hx : x.length < 0xFFFFFF) :
    (compress x).take 4 = 0x11 :: u24le x.length := by
  simp only [compress]
  rw [if_pos hx]
  have hlen1 : (0x11 :: u24le x.length).length = 4 := by simp [u24le]
  rw [hlen1]
  have hlen0 : ((0x11 :: u24le x.length) ++ [0]).length = 5 := by
    simp [u24le]
  have hres : (compressLoop x initTable ((0x11 :: u24le x.length) ++ [0]) 4 0
      0 0 (x.length + 1)).take 4 =
      ((0x11 :: u24le x.length) ++ [0]).take 4 := by
    refine take_eq_of_getD _ _ 4
      (Nat.le_trans (by omega) (hlen0 ▸ compressLoop_len_le x _ _ _ _ _ _ _))
      (by omega) ?_
    intro i hi
    exact compressLoop_getD_stable x _ _ _ _ _ _ _ _ (by omega) (by omega)
      (by omega)
  rw [hres, List.take_append_of_le_length (by omega),
    List.take_of_length_le (by omega)]

/-- `compress` with a large (escaped) length: the whole 8-byte prefix (magic,
three zero bytes, 32-bit size) survives the loop untouched. -/
theorem compress_take_size4esc (x : List Nat) (hx1 : 0xFFFFFF ≤ x.length)
    (hx2 : x.length < 0xFFFFFFFF) :
    (compress x).take 8 = 0x11 :: 0 :: 0 :: 0 :: u32le x.length := by
  simp only [compress]
  rw [if_neg (by omega), if_pos hx2]
  have hlen1 : (0x11 :: 0 :: 0 :: 0 :: u32le x.length).length = 8 := by
    simp [u32le]
  rw [hlen1]
  have hlen0 : ((0x11 :: 0 :: 0 :: 0 :: u32le x.length) ++ [0]).length = 9 := by
    simp [u32le]
  have hres : (compressLoop x initTable
      ((0x11 :: 0 :: 0 :: 0 :: u32le x.length) ++ [0]) 8 0 0 0
      (x.length + 1)).take 8 =
      ((0x11 :: 0 :: 0 :: 0 :: u32le x.length) ++ [0]).take 8 := by
    refine take_eq_of_getD _ _ 8
      (Nat.le_trans (by omega) (hlen0 ▸ compressLoop_len_le x _ _ _ _ _ _ _))
      (by omega) ?_
    intro i hi
    exact compressLoop_getD_stable x _ _ _ _ _ _ _ _ (by omega) (by omega)
      (by omega)
  rw [hres, List.take_append_of_le_length (by omega),
    List.take_of_length_le (by omega)]

/-- `commonPrefixLen` of two uniform lists. -/
theorem commonPrefixLen_replicate (a : Nat) :
    ∀ m k, commonPrefixLen (List.replicate m a) (List.replicate k a) =
      min m k := by
  intro m
  induction m with
  | zero => intro k; simp [commonPrefixLen]
  | succ m ih =>
      intro k
      cases k with
      | zero => simp [commonPrefixLen]
      | succ k => simp [List.replicate_succ, commonPrefixLen, ih,
          Nat.succ_min_succ]

/-- `getD` inside the taken prefix. -/
theorem getD_take_lt (l : List Nat) (k i : Nat) (hik : i < k)
    (hil : i < l.length) : (l.take k).getD i 0 = l.getD i 0 := by
  rw [List.getD_eq_getElem _ 0 (by simp; omega),
    List.getD_eq_getElem _ 0 hil, List.getElem_take]

/-- C6 counterexample: the claim says the escape header is written for
*every* input of length 0xFFFFFF or greater, but for lengths of 0xFFFFFFFF
(= 2^32 − 1) or more `compress` writes no size header at all: the byte at
offset 3, which the escape header requires to be zero, is instead the first
byte of the second token (0x1F) of the compressed body. -/
theorem C6_huge_input_counterexample :
    (compress (List.replicate 0xFFFFFFFF 0)).take 4 ≠ [0x11, 0, 0, 0] := by
  intro hEq
  set X := List.replicate 0xFFFFFFFF (0 : Nat) with hX
  have hlen : X.length = 0xFFFFFFFF := by rw [hX, List.length_replicate]
  have hgd : ∀ i, i < 0xFFFFFFFF → X.getD i 0 = 0 := by
    intro i hi
    rw [hX]
    exact getD_replicate_lt hi
  -- the second table state: position 0 registered in slot 0
  have hsub0 : submit_val initTable X 0 =
      (fun i => if i = 0 then 0 else initTable i) := by
    rw [submit_val, if_neg (by omega)]
    rw [hgd 0 (by omega), hgd 1 (by omega), hgd 2 (by omega), hgd 3 (by omega)]
    rw [show make_hash 0 0 0 0 % HASH_COUNT = 0 from by decide]
  -- iteration 1: empty table, no match, literal 0
  have hg0 : get_lz_code initTable X 0 = Option.none := by
    rw [get_lz_code, if_neg (by omega)]
    simp [initTable]
  -- iteration 2: slot 0 holds position 0; distance 1, huge common prefix,
  -- length capped at 0x10110
  have hg1 : get_lz_code (fun i => if i = 0 then 0 else initTable i) X 1 =
      Option.some (1, 0x10110) := by
    rw [get_lz_code, if_neg (by omega)]
    rw [hgd 1 (by omega), hgd 2 (by omega), hgd 3 (by omega), hgd 4 (by omega)]
    rw [show make_hash 0 0 0 0 % HASH_COUNT = 0 from by decide]
    dsimp only
    rw [if_pos (show (0 : Nat) = 0 from rfl)]
    rw [show X.drop 1 = List.replicate 0xFFFFFFFE 0 from by
        rw [hX, List.drop_replicate],
      show X.drop 0 = List.replicate 0xFFFFFFFF 0 from by
        rw [hX, List.drop_replicate],
      commonPrefixLen_replicate]
    decide
  -- unroll the first compression step
  have h0 : compress X =
      compressLoop X initTable [0x11, 0] 1 0 0 0 (4294967294 + 1 + 1) := by
    simp only [compress]
    rw [hlen]
    norm_num
  have h1 : compressLoop X initTable [0x11, 0] 1 0 0 0 (4294967294 + 1 + 1) =
      compressLoop X (fun i => if i = 0 then 0 else initTable i)
        [0x11, 0, 0] 1 0 1 1 (4294967294 + 1) := by
    rw [compressLoop.eq_2]
    rw [hlen, if_pos (by norm_num), hg0]
    rw [hsub0, hgd 0 (by omega)]
    norm_num
  -- unroll the second compression step
  have h2 : compressLoop X (fun i => if i = 0 then 0 else initTable i)
      [0x11, 0, 0] 1 0 1 1 (4294967294 + 1) =
      compressLoop X
        (submitRange (fun i => if i = 0 then 0 else initTable i) X 1 0x10110)
        [0x11, 0, 0, 0x1F, 0xFF, 0xF0, 0] 1 1 2 65809 4294967294 := by
    rw [compressLoop.eq_2]
    rw [hlen, if_pos (by norm_num), hg1]
    dsimp only
    rw [show lzssWrite 1 0x10110 = [0x1F, 0xFF, 0xF0, 0] from by decide]
    norm_num
  -- the byte at offset 3 survives the rest of the loop
  have h3 : (compress X).getD 3 0 = 0x1F := by
    rw [h0, h1, h2]
    rw [compressLoop_getD_stable X _ _ _ _ _ _ _ 3 (by norm_num) (by norm_num)
      (by norm_num)]
    decide
  have h5 : 4 ≤ (compress X).length := by
    rw [h0, h1, h2]
    have hle := compressLoop_len_le X 4294967294
      (submitRange (fun i => if i = 0 then 0 else initTable i) X 1 0x10110)
      [0x11, 0, 0, 0x1F, 0xFF, 0xF0, 0] 1 1 2 65809
    simp only [List.length_cons, List.length_nil] at hle
    omega
  have h6 : (compress X).getD 3 0 = 0 := by
    rw [← getD_take_lt (compress X) 4 3 (by omega) (by omega), hEq]
    decide
  rw [h3] at h6
  exact absurd h6 (by decide)

/-- C6, amended: `compress` writes the 3-byte size header for every input of
length at most 0xFFFFFE and the three-zero-bytes-plus-32-bit-LE escape header
for every input whose length lies in `[0xFFFFFF, 0xFFFFFFFE]` (for lengths of
0xFFFFFFFF or more *no size header at all* is written, see
`C6_huge_input_counterexample`); `decompress` distinguishes the two header
forms by whether the first three size bytes are all zero, using the 24-bit
field as the declared size when it is nonzero and the 32-bit escape field
when it is zero. -/
theorem C6_size_header :
    (∀ x : List Nat, x.length < 0xFFFFFF →
        (compress x).take 4 = 0x11 :: u24le x.length) ∧
    (∀ x : List Nat, 0xFFFFFF ≤ x.length → x.length < 0xFFFFFFFF →
        (compress x).take 8 = 0x11 :: 0 :: 0 :: 0 :: u32le x.length) ∧
    (∀ data : List Nat, 4 ≤ data.length → data.getD 0 0 % 256 = 0x11 →
        (readU24LE data 1 ≠ 0 →
          decompress data =
            decompressLoop data (data.length + 1) 4 [] (readU24LE data 1) 0 0) ∧
        (readU24LE data 1 = 0 → 8 ≤ data.length →
          decompress data =
            decompressLoop data (data.length + 1) 4 [] (readU32LE data 4) 0 0)) := by
  refine ⟨compress_take_size3, compress_take_size4esc, ?_⟩
  intro data h4 hm
  constructor
  · intro hz
    rw [decompress, if_neg (by omega), if_neg (fun hc => hc hm), if_neg hz]
  · intro hz h8
    rw [decompress, if_neg (by omega), if_neg (fun hc => hc hm), if_pos hz,
      if_neg (by omega)]

theorem C6_witness :
    (compress []).take 4 = 0x11 :: u24le 0 ∧
    (compress (List.replicate 0xFFFFFF 0)).take 8 =
      0x11 :: 0 :: 0 :: 0 :: u32le 0xFFFFFF ∧
    decompress [0x11, 2, 0, 0, 0, 7, 8] =
      decompressLoop [0x11, 2, 0, 0, 0, 7, 8] 8 4 [] 2 0 0 := by
  refine ⟨?_, ?_, ?_⟩
  · have h := C6_size_header.1 [] (by decide)
    simpa using h
  · have h := C6_size_header.2.1 (List.replicate 0xFFFFFF 0)
      (by rw [List.length_replicate]) (by rw [List.length_replicate]; omega)
    rwa [List.length_replicate] at h
  · have h := (C6_size_header.2.2 [0x11, 2, 0, 0, 0, 7, 8] (by decide)
      (by decide)).1 (by decide)
    have e1 : readU24LE [0x11, 2, 0, 0, 0, 7, 8] 1 = 2 := by decide
    have e2 : ([0x11, 2, 0, 0, 0, 7, 8] : List Nat).length + 1 = 8 := by decide
    rwa [e1, e2] at h

/-- `lzssRead` on an explicit 2-byte buffer. -/
theorem lzssRead_eval2 (b0 b1 : Nat) :
    lzssRead [b0, b1] =
      (let pair := (b0 % 256) * 256 + b1 % 256
       if pair / 4096 = 0 then ReadResult.fail
       else if pair / 4096 = 1 then ReadResult.panicked
       else ReadResult.ok (pair % 4096 + 1) (pair / 4096 + 1) 2) := rfl

/-- `lzssRead` on an explicit 3-byte buffer. -/
theorem lzssRead_eval3 (b0 b1 b2 : Nat) :
    lzssRead [b0, b1, b2] =
      (let pair := (b0 % 256) * 256 + b1 % 256
       if pair / 4096 = 0 then
         ReadResult.ok ((pair % 16) * 256 + b2 % 256 + 1) (pair / 16 + 0x11) 3
       else if pair / 4096 = 1 then ReadResult.panicked
       else ReadResult.ok (pair % 4096 + 1) (pair / 4096 + 1) 2) := rfl

/-- `lzssRead` on an explicit 4-byte buffer. -/
theorem lzssRead_eval4 (b0 b1 b2 b3 : Nat) :
    lzssRead [b0, b1, b2, b3] =
      (let pair := (b0 % 256) * 256 + b1 % 256
       let ext := (b2 % 256) * 256 + b3 % 256
       if pair / 4096 = 0 then
         ReadResult.ok ((pair % 16) * 256 + b2 % 256 + 1) (pair / 16 + 0x11) 3
       else if pair / 4096 = 1 then
         ReadResult.ok (ext % 4096 + 1)
           ((pair % 4096) * 16 + ext / 4096 + 0x111) 4
       else ReadResult.ok (pair % 4096 + 1) (pair / 4096 + 1) 2) := rfl

/-- C4: for every match length in `[3, 0x10110]` and distance in `[1, 4095]`,
writing a token with `LzssCode::write` and reading it back with
`LzssCode::read` reproduces exactly the same `(distance, length)` pair, and
the reported advance equals the number of bytes written. -/
theorem C4_token_roundtrip (distance length : Nat) (hd1 : 1 ≤ distance)
    (hd2 : distance ≤ 4095) (hl1 : 3 ≤ length) (hl2 : length ≤ 0x10110) :
    lzssRead (lzssWrite distance length) =
      ReadResult.ok distance length (lzssWrite distance length).length := by
  by_cases hC : 0x111 ≤ length
  · -- 4-byte form
    simp only [lzssWrite]
    rw [if_pos hC, lzssRead_eval4]
    simp only [List.length_cons, List.length_nil]
    rw [if_neg (by omega), if_pos (by omega)]
    simp only [ReadResult.ok.injEq]
    refine ⟨by omega, by omega, trivial⟩
  · by_cases hB : 0x11 ≤ length
    · -- 3-byte form
      simp only [lzssWrite]
      rw [if_neg hC, if_pos hB, lzssRead_eval3]
      simp only [List.length_cons, List.length_nil]
      rw [if_pos (by omega)]
      simp only [ReadResult.ok.injEq]
      refine ⟨by omega, by omega, trivial⟩
    · -- 2-byte form
      simp only [lzssWrite]
      rw [if_neg hC, if_neg hB, lzssRead_eval2]
      simp only [List.length_cons, List.length_nil]
      rw [if_neg (by omega), if_neg (by omega)]
      simp only [ReadResult.ok.injEq]
      refine ⟨by omega, by omega, trivial⟩

theorem C4_witness :
    1 ≤ 300 ∧ 300 ≤ 4095 ∧ 3 ≤ 700 ∧ 700 ≤ 0x10110 ∧
    lzssRead (lzssWrite 300 700) =
      ReadResult.ok 300 700 (lzssWrite 300 700).length :=
  ⟨by decide, by decide, by decide, by decide,
   C4_token_roundtrip 300 700 (by decide) (by decide) (by decide) (by decide)⟩

/-- C9: expanding a match with `distance ≤ length` copies byte-by-byte in
increasing order, so each of the appended bytes equals the byte `distance`
positions earlier in the output at the moment it is written: in the final
buffer, the byte appended at offset `i` (position `out.length + i`) equals
the byte at position `cpy_start + i = out.length + i - distance`.
Concretely, `decompress (compress "aaaaaaaaaa")` reproduces the 10-byte
input even though its encoding uses a match with distance 1 < length 9. -/
theorem C9_overlap_copy :
    (∀ (out : List Nat) (cap cpy_start n : Nat), cpy_start < out.length →
        ∀ i, i < n →
          ((overlapCopy out cap cpy_start n).1).getD (out.length + i) 0 =
            ((overlapCopy out cap cpy_start n).1).getD (cpy_start + i) 0) ∧
    decompress (compress (List.replicate 10 0x61)) =
      DResult.ok (List.replicate 10 0x61) := by
  constructor
  · intro out cap cpy_start n
    induction n generalizing out cap cpy_start with
    | zero =>
        intro _ i hi
        exact absurd hi (Nat.not_lt_zero i)
    | succ m ih =>
        intro hs i hi
        rw [overlapCopy]
        cases i with
        | zero =>
            simp only [Nat.add_zero]
            rw [overlapCopy_getD_stable _ _ _ _ _ (by simp),
              overlapCopy_getD_stable _ _ _ _ _ (by simp; omega),
              List.getD_append_right _ _ _ _ (Nat.le_refl _),
              List.getD_append _ _ _ _ hs, Nat.sub_self,
              List.getD_cons_zero, List.getD_eq_getD_get?]
        | succ j =>
            have hres := ih (out ++ [(out.get? cpy_start).getD 0])
              (growCap cap (out.length + 1)) (cpy_start + 1)
              (by simp; omega) j (by omega)
            have e1 : (out ++ [(out.get? cpy_start).getD 0]).length + j =
                out.length + (j + 1) := by
              simp
              omega
            have e2 : cpy_start + 1 + j = cpy_start + (j + 1) := by omega
            rw [e1, e2] at hres
            exact hres
  · decide

theorem C9_witness :
    ((overlapCopy [5, 6] 2 1 3).1).getD 4 0 =
      ((overlapCopy [5, 6] 2 1 3).1).getD 3 0 :=
  C9_overlap_copy.1 [5, 6] 2 1 3 (by decide) 2 (by decide)

theorem C10_witness :
    1 ≤ 1 ∧
    overlapCopyNoDefault [7] 1 0 3 = Option.some (overlapCopy [7] 1 0 3) :=
  ⟨C10_no_fallback.1 [0x20, 0x00] 1 3 2 (by decide),
   C10_no_fallback.2 [7] 1 0 3 (by decide)⟩

end Nlzss11
